import Mathlib

/-!
Verification of the token load balancer (`src/services/load_balancer.py`).

The Python engine is shallowly embedded: pure in-memory computations become
Lean functions, collaborator calls (TokenManager / database / scheduling-mode
lookups, which live outside `src/`) become environment-supplied results, and
a raised Python exception is `Except.error`.  Timestamps are integers
(seconds); `datetime.now()` is the field `now` of the environment.
-/

set_option maxRecDepth 2000

namespace LoadBalancer

/-- A token record, with exactly the fields `load_balancer.py` reads:
`id`, `email`, `is_active`, `expiry_time`, `plan_type`, `image_enabled`,
`video_enabled`, `sora2_supported`, `sora2_cooldown_until`, `usage_count`.
Optional timestamps model Python `None` as `Option.none`. -/
structure Token where
  id : Nat
  email : String
  is_active : Bool
  expiry_time : Option Int
  plan_type : String
  image_enabled : Bool
  video_enabled : Bool
  sora2_supported : Bool
  sora2_cooldown_until : Option Int
  usage_count : Option Nat
  deriving Repr, DecidableEq

/-- The in-memory `_usage_cache : Dict[int, int]`, as an association list. -/
def Cache := List (Nat × Nat)

instance : DecidableEq Cache := by
  unfold Cache
  infer_instance

/-- Dictionary lookup `token_id in self._usage_cache` / `self._usage_cache[token_id]`. -/
def cacheLookup : Cache → Nat → Option Nat
  | [], _ => none
  | (k, v) :: rest, i => if k = i then some v else cacheLookup rest i

/-- Dictionary write `self._usage_cache[token_id] = v`. -/
def cacheInsert : Cache → Nat → Nat → Cache
  | [], i, v => [(i, v)]
  | (k, w) :: rest, i, v =>
      if k = i then (i, v) :: rest else (k, w) :: cacheInsert rest i v

/-- `_get_cached_usage`: return the cached counter for `token_id`, first
seeding it from the database value `db_usage` if no entry exists.  Returns the
(possibly extended) cache together with the counter. -/
def get_cached_usage (c : Cache) (token_id : Nat) (db_usage : Nat) : Cache × Nat :=
  match cacheLookup c token_id with
  | some v => (c, v)
  | none => (cacheInsert c token_id db_usage, db_usage)

/-- The loop building `token_with_usage`: resolve the counter of each candidate via
`_get_cached_usage(token.id, token.usage_count or 0)`, threading the cache
left to right and keeping the pairs in input order. -/
def resolveUsages : Cache → List Token → Cache × List (Token × Nat)
  | c, [] => (c, [])
  | c, t :: ts =>
      let r := get_cached_usage c t.id (t.usage_count.getD 0)
      let rest := resolveUsages r.1 ts
      (rest.1, (t, r.2) :: rest.2)

/-- Insert a pair into a list already sorted ascending by counter, placing it
before the first strictly-or-equally larger counter so that, combined with
`sortByUsage`, earlier input elements stay before equal-counter later ones.
This is the stable ascending sort performed by
`token_with_usage.sort(key=lambda x: x[1])` (Python `list.sort` is stable). -/
def insUsage (p : Token × Nat) : List (Token × Nat) → List (Token × Nat)
  | [] => [p]
  | q :: qs => if p.2 ≤ q.2 then p :: q :: qs else q :: insUsage p qs

/-- Stable ascending sort by the cached counter (see `insUsage`). -/
def sortByUsage : List (Token × Nat) → List (Token × Nat)
  | [] => []
  | p :: ps => insUsage p (sortByUsage ps)

/-- The body of `_select_round_robin` that runs inside
`async with self._round_robin_lock`: pure in-memory work only — resolve the
counters, stable-sort ascending, take the head, bump its cached counter. -/
def roundRobinCritical (c : Cache) (available_tokens : List Token) :
    Cache × Option Token :=
  match available_tokens with
  | [] => (c, none)
  | _ :: _ =>
      let r := resolveUsages c available_tokens
      match sortByUsage r.2 with
      | [] => (r.1, none)
      | (t, u) :: _ => (cacheInsert r.1 t.id (u + 1), some t)

/-- `_select_round_robin`: run the critical section, then (outside the lock)
schedule the fire-and-forget database increment for the selected token.  The
third component records the id handed to `asyncio.create_task`. -/
def select_round_robin (c : Cache) (available_tokens : List Token) :
    Cache × Option Token × Option Nat :=
  let r := roundRobinCritical c available_tokens
  (r.1, r.2, r.2.map (fun t => t.id))

/-- `_async_increment_db_usage`: awaits the registry increment inside
`try/except`; a failure is logged and swallowed, so the task always finishes
normally with no result. -/
def async_increment_db_usage (incrementUsage : Nat → Except String Unit)
    (token_id : Nat) : Unit :=
  match incrementUsage token_id with
  | Except.ok _ => ()
  | Except.error _ => ()

/-- Positional selection used to model `random.choice(l)`: some element of a
non-empty list, at an arbitrary index. -/
def nthToken : List Token → Nat → Option Token
  | [], _ => none
  | t :: _, 0 => some t
  | _ :: ts, Nat.succ k => nthToken ts k

/-- Model of `random.choice(l)`: the element at an arbitrary index
`n % l.length` (covers every behaviour of the uniform choice). -/
def randomChoice (n : Nat) (l : List Token) : Option Token :=
  nthToken l (n % l.length)

/-- The environment of one `select_token` call: configuration, the clock, and
the results the collaborators (TokenManager, database, lock, concurrency
manager) would produce.  Collaborator calls that `load_balancer.py` awaits
without a `try/except` are `Except`-valued: their `Except.error` is a Python
exception.  `renewalOutcome` and `incrementUsage` are the completions of the
two fire-and-forget background activities; selection must not depend on them. -/
structure Env where
  now : Int
  at_auto_refresh_enabled : Bool
  getAllTokens : Except String (List Token)
  getActiveTokens : Except String (List Token)
  refreshQuota : Nat → Except String Unit
  getToken : Nat → Except String (Option Token)
  is_locked : Nat → Bool
  hasConcurrencyManager : Bool
  can_use_image : Nat → Bool
  can_use_video : Nat → Bool
  schedulingMode : Except String String
  choiceIdx : Nat
  renewalOutcome : Nat → Except String Unit
  incrementUsage : Nat → Except String Unit

/-- What one `select_token` call produced when no exception escaped:
the updated usage cache, the chosen token (`none` is Python `None`), and the
collaborator requests issued along the way: ids for which a renewal was
triggered, ids for which the cooldown quota refresh was called, and the id
handed to the fire-and-forget usage increment task (if any). -/
structure SelectOutcome where
  cache : Cache
  chosen : Option Token
  renewed : List Nat
  refreshed : List Nat
  dbTask : Option Nat
  deriving DecidableEq

/-- The renewal condition of the auto-refresh pass: the token `is_active`,
has an `expiry_time`, and `hours_until_expiry <= 24`, i.e. the expiry is at
most 24 hours (86400 seconds) past `now` — already-expired tokens qualify
too, exactly as in the source. -/
def needsRenewal (now : Int) (t : Token) : Bool :=
  t.is_active &&
    (match t.expiry_time with
     | some e => decide (e - now ≤ 24 * 3600)
     | none => false)

/-- Modelled from the spec: `auto_refresh_expiring_token` lives in
`token_manager.py`, which is not under `src/`; per the spec the renewal is an
asynchronous, best-effort trigger that never blocks selection on completion,
so triggering it is modelled as merely recording the token id.  The eventual outcome of the renewal is `Env.renewalOutcome`, which selection never reads. -/
def renewalPass (now : Int) (tokens : List Token) : List Nat :=
  (tokens.filter (fun t => needsRenewal now t)).map (fun t => t.id)

/-- The `if config.at_auto_refresh_enabled:` block at the top of
`select_token`: fetch all tokens (an exception propagates) and trigger a
renewal for each active token expiring within 24 hours. -/
def renewalStep (enabled : Bool) (getAll : Except String (List Token))
    (now : Int) : Except String (List Nat) :=
  if enabled then
    match getAll with
    | Except.error e => Except.error e
    | Except.ok l => Except.ok (renewalPass now l)
  else Except.ok []

/-- Does the field `sora2_cooldown_until` of the token lie strictly in the future
(`token.sora2_cooldown_until > datetime.now()`)? -/
def cooldownFuture (now : Int) (t : Token) : Bool :=
  match t.sora2_cooldown_until with
  | some c => decide (now < c)
  | none => false

/-- The final two checks of the video-filter loop body, applied to whatever
the `token` variable holds at that point (the re-read record when a refresh
happened, the original otherwise): `if token and token.sora2_cooldown_until >
now: continue` then `if token: append`. -/
def videoDecide (now : Int) (tok : Option Token) (refreshed : List Nat) :
    Option Token × List Nat :=
  match tok with
  | none => (none, refreshed)
  | some t2 =>
      if cooldownFuture now t2 then (none, refreshed)
      else (some t2, refreshed)

/-- One iteration of the video-filter loop body of `select_token` for token
`t`: drop it unless `video_enabled` and `sora2_supported`; if its cooldown is
set and already past, call the registry quota refresh and re-read the token
(an exception of either call propagates); finally drop the (possibly re-read)
token if it is missing or its cooldown is still in the future.  Returns the
kept token (if any) and the ids for which a refresh was issued. -/
def videoStep (now : Int) (refreshQuota : Nat → Except String Unit)
    (getToken : Nat → Except String (Option Token)) (t : Token) :
    Except String (Option Token × List Nat) :=
  if !t.video_enabled then Except.ok (none, [])
  else if !t.sora2_supported then Except.ok (none, [])
  else
    match t.sora2_cooldown_until with
    | some c =>
        if c ≤ now then
          match refreshQuota t.id with
          | Except.error e => Except.error e
          | Except.ok _ =>
              match getToken t.id with
              | Except.error e => Except.error e
              | Except.ok tok => Except.ok (videoDecide now tok [t.id])
        else Except.ok (videoDecide now (some t) [])
    | none => Except.ok (videoDecide now (some t) [])

/-- The full video-filter loop: apply `videoStep` to each candidate in order,
collecting kept tokens and refreshed ids; the first exception propagates. -/
def filterVideo (now : Int) (refreshQuota : Nat → Except String Unit)
    (getToken : Nat → Except String (Option Token)) :
    List Token → Except String (List Token × List Nat)
  | [] => Except.ok ([], [])
  | t :: ts =>
      match videoStep now refreshQuota getToken t with
      | Except.error e => Except.error e
      | Except.ok (kept, refreshed) =>
          match filterVideo now refreshQuota getToken ts with
          | Except.error e => Except.error e
          | Except.ok (rest, refreshedRest) =>
              Except.ok
                ((match kept with
                  | some k => k :: rest
                  | none => rest),
                 refreshed ++ refreshedRest)

/-- The image-filter loop: keep tokens with `image_enabled`, not currently
lock-held, and (when a concurrency manager is configured) admitted by
`can_use_image`. -/
def filterImage (is_locked : Nat → Bool) (hasCM : Bool)
    (can_use_image : Nat → Bool) (tokens : List Token) : List Token :=
  tokens.filter
    (fun t => t.image_enabled && !(is_locked t.id) && (!hasCM || can_use_image t.id))

/-- The Pro-plan filter: when `require_pro`, keep only tokens with
`plan_type == "chatgpt_pro"`, returning `none` (Python `return None`) when
that empties the pool. -/
def proStage (require_pro : Bool) (active : List Token) : Option (List Token) :=
  if require_pro then
    let pro := active.filter (fun t => t.plan_type = "chatgpt_pro")
    if pro.isEmpty then none else some pro
  else some active

/-- Read the admin scheduling mode and pick from the pool: round-robin when
the mode is `"round_robin"`, otherwise `random.choice`.  An exception from
the mode lookup propagates. -/
def pickByMode (schedulingMode : Except String String) (choiceIdx : Nat)
    (cache : Cache) (renewed refreshed : List Nat) (pool : List Token) :
    Except String SelectOutcome :=
  match schedulingMode with
  | Except.error e => Except.error e
  | Except.ok mode =>
      if mode = "round_robin" then
        let r := select_round_robin cache pool
        Except.ok ⟨r.1, r.2.1, renewed, refreshed, r.2.2⟩
      else
        Except.ok ⟨cache, randomChoice choiceIdx pool, renewed, refreshed, none⟩

/-- The tail of `select_token` after the plan and video filters: the image
branch (image filter, then mode-based pick), else the video-admission branch
(`can_use_video` filter) when a concurrency manager exists, else a plain
mode-based pick over the surviving pool. -/
def postVideoStage (is_locked : Nat → Bool) (hasCM : Bool)
    (can_use_image can_use_video : Nat → Bool)
    (schedulingMode : Except String String) (choiceIdx : Nat) (cache : Cache)
    (for_image for_video : Bool) (renewed refreshed : List Nat)
    (pool : List Token) : Except String SelectOutcome :=
  if for_image then
    let avail := filterImage is_locked hasCM can_use_image pool
    if avail.isEmpty then Except.ok ⟨cache, none, renewed, refreshed, none⟩
    else pickByMode schedulingMode choiceIdx cache renewed refreshed avail
  else if for_video && hasCM then
    let avail := pool.filter (fun t => can_use_video t.id)
    if avail.isEmpty then Except.ok ⟨cache, none, renewed, refreshed, none⟩
    else pickByMode schedulingMode choiceIdx cache renewed refreshed avail
  else pickByMode schedulingMode choiceIdx cache renewed refreshed pool

/-- `select_token`: the renewal pass, the base pool fetch, the plan filter,
the video filter, and the workload-specific admission and fairness stages,
with each emptied pool short-circuiting to `chosen = none` and every
unhandled collaborator exception propagating as `Except.error`. -/
def select_token (env : Env) (cache : Cache)
    (for_image_generation for_video_generation require_pro : Bool) :
    Except String SelectOutcome :=
  match renewalStep env.at_auto_refresh_enabled env.getAllTokens env.now with
  | Except.error e => Except.error e
  | Except.ok renewed =>
      match env.getActiveTokens with
      | Except.error e => Except.error e
      | Except.ok active =>
          if active.isEmpty then Except.ok ⟨cache, none, renewed, [], none⟩
          else
            match proStage require_pro active with
            | none => Except.ok ⟨cache, none, renewed, [], none⟩
            | some pool =>
                if for_video_generation then
                  match filterVideo env.now env.refreshQuota env.getToken pool with
                  | Except.error e => Except.error e
                  | Except.ok (kept, refreshed) =>
                      if kept.isEmpty then
                        Except.ok ⟨cache, none, renewed, refreshed, none⟩
                      else
                        postVideoStage env.is_locked env.hasConcurrencyManager
                          env.can_use_image env.can_use_video env.schedulingMode
                          env.choiceIdx cache for_image_generation
                          for_video_generation renewed refreshed kept
                else
                  postVideoStage env.is_locked env.hasConcurrencyManager
                    env.can_use_image env.can_use_video env.schedulingMode
                    env.choiceIdx cache for_image_generation
                    for_video_generation renewed [] pool

/-- Modelled from the spec: the `TokenLock` class (`token_lock.py`) is not
under `src/`; §4.2 specifies a per-identifier lease with a configurable
timeout, atomic `acquire`, and leases held past their timeout treated as
free.  State maps each token id to the instant its current lease was
acquired (if any). -/
structure TokenLockState where
  lock_timeout : Int
  leases : Nat → Option Int

/-- Modelled from the spec: `isLocked(id)` — true iff a lease for `id` exists
and has been held for strictly less than the timeout. -/
def tl_is_locked (st : TokenLockState) (id' : Nat) (now : Int) : Bool :=
  match st.leases id' with
  | none => false
  | some t0 => decide (now - t0 < st.lock_timeout)

/-- Modelled from the spec: `acquire(id)` — atomically succeed iff no
unexpired lease exists, recording the acquisition instant. -/
def tl_acquire (st : TokenLockState) (id' : Nat) (now : Int) :
    TokenLockState × Bool :=
  if tl_is_locked st id' now then (st, false)
  else
    (⟨st.lock_timeout, fun j => if j = id' then some now else st.leases j⟩, true)

/-- Modelled from the spec: `release(id)` — drop the lease for `id`. -/
def tl_release (st : TokenLockState) (id' : Nat) : TokenLockState :=
  ⟨st.lock_timeout, fun j => if j = id' then none else st.leases j⟩

/-- The counter the round-robin pass resolves for a token: its cache entry,
or (when absent) the seed `token.usage_count or 0`. -/
def usageOf (c : Cache) (t : Token) : Nat :=
  (cacheLookup c t.id).getD (t.usage_count.getD 0)

/-- The first pair in input order whose counter is minimal: the earlier
element wins any tie.  This is the head a stable ascending sort produces. -/
def firstMinPair : List (Token × Nat) → Option (Token × Nat)
  | [] => none
  | p :: ps =>
      match firstMinPair ps with
      | none => some p
      | some q => if p.2 ≤ q.2 then some p else some q

/-- The first candidate in input order whose resolved counter is minimal
(ties broken first-seen-wins). -/
def firstMinToken (c : Cache) : List Token → Option Token
  | [] => none
  | t :: ts =>
      match firstMinToken c ts with
      | none => some t
      | some q => if usageOf c t ≤ usageOf c q then some t else some q

/-! Concrete fixtures used by scenario conjuncts, counterexamples and
witnesses. -/

/-- Scenario token T1 with cached counter 3. -/
def scT1 : Token := ⟨1, "t1", true, none, "chatgpt_pro", true, true, true, none, some 3⟩

/-- Scenario token T2 with cached counter 1. -/
def scT2 : Token := ⟨2, "t2", true, none, "chatgpt_pro", true, true, true, none, some 1⟩

/-- Scenario token T3 with cached counter 1. -/
def scT3 : Token := ⟨3, "t3", true, none, "chatgpt_pro", true, true, true, none, some 1⟩

/-- Scenario cache: T1 at 3, T2 at 1, T3 at 1. -/
def scCache : Cache := [(1, 3), (2, 1), (3, 1)]

/-- Scenario pool in input order. -/
def scPool : List Token := [scT1, scT2, scT3]

/-- A fully capable Pro token whose Sora2 cooldown (instant 0) is already
past at `now = 5`, so the video filter refreshes and re-reads it. -/
def tokGood : Token := ⟨1, "a", true, none, "chatgpt_pro", true, true, true, some 0, some 0⟩

/-- What the registry hands back for id 1 after the refresh: same id, but
with `video_enabled`, `sora2_supported` and the Pro plan all gone. -/
def tokDegraded : Token := ⟨1, "a", true, none, "free", true, false, false, none, some 0⟩

/-- A healthy, fully capable Pro token with no cooldown. -/
def tokHealthy : Token := ⟨2, "b", true, none, "chatgpt_pro", true, true, true, none, some 0⟩

/-- An active token expiring at instant 100 — within 24 hours of `now = 5`. -/
def tokExpiring : Token := ⟨3, "c", true, some 100, "chatgpt_pro", true, true, true, none, some 0⟩

/-- An active non-Pro token. -/
def tokFree : Token := ⟨4, "d", true, none, "free", true, true, true, none, some 0⟩

/-- An active token without the video capability. -/
def tokNoVideo : Token := ⟨5, "e", true, none, "chatgpt_pro", true, false, true, none, some 0⟩

/-- An active token without the image capability. -/
def tokNoImage : Token := ⟨6, "f", true, none, "chatgpt_pro", false, true, true, none, some 0⟩

/-- A baseline environment: clock at 5, auto-refresh off, empty pools, every
collaborator call succeeding. -/
def baseEnv : Env :=
  ⟨5, false, Except.ok [], Except.ok [], fun _ => Except.ok (),
   fun _ => Except.ok none, fun _ => false, false, fun _ => true,
   fun _ => true, Except.ok "random", 0, fun _ => Except.ok (),
   fun _ => Except.ok ()⟩

/-- Environment where the pool is `[tokGood]` and the registry re-read after
the cooldown refresh returns the degraded record `tokDegraded`. -/
def envReload : Env :=
  { baseEnv with
    getActiveTokens := Except.ok [tokGood],
    getToken := fun _ => Except.ok (some tokDegraded) }

/-- Environment where the quota-refresh collaborator raises while a second,
perfectly usable token (`tokHealthy`) sits in the pool. -/
def envRefreshFail : Env :=
  { baseEnv with
    getActiveTokens := Except.ok [tokGood, tokHealthy],
    refreshQuota := fun _ => Except.error "refresh failed" }

/-- Environment whose pool is the single healthy token. -/
def envHealthy : Env :=
  { baseEnv with getActiveTokens := Except.ok [tokHealthy] }

/-- Environment with auto-refresh on and one expiring token known to the
registry (the active pool is empty). -/
def envRenew : Env :=
  { baseEnv with
    at_auto_refresh_enabled := true,
    getAllTokens := Except.ok [tokExpiring] }

/-- Environment whose pool is one non-Pro token. -/
def envNoPro : Env := { baseEnv with getActiveTokens := Except.ok [tokFree] }

/-- Environment whose pool is one token without video capability. -/
def envNoVideo : Env := { baseEnv with getActiveTokens := Except.ok [tokNoVideo] }

/-- Environment whose pool is one token without image capability. -/
def envNoImage : Env := { baseEnv with getActiveTokens := Except.ok [tokNoImage] }

/-- A token-lock state with a 10-unit lease timeout and no lease held. -/
def tlFree : TokenLockState := ⟨10, fun _ => none⟩

/-! ### Cache lemmas -/

theorem cacheLookup_insert_self (c : Cache) (i v : Nat) :
    cacheLookup (cacheInsert c i v) i = some v := by
  induction c with
  | nil => simp [cacheInsert, cacheLookup]
  | cons p rest ih =>
      obtain ⟨k, w⟩ := p
      by_cases h : k = i
      · simp [cacheInsert, cacheLookup, h]
      · simp [cacheInsert, cacheLookup, h, ih]

theorem cacheLookup_insert_ne (c : Cache) (i v j : Nat) (h : j ≠ i) :
    cacheLookup (cacheInsert c i v) j = cacheLookup c j := by
  have hij : i ≠ j := fun hh => h hh.symm
  induction c with
  | nil => simp [cacheInsert, cacheLookup, hij]
  | cons p rest ih =>
      obtain ⟨k, w⟩ := p
      by_cases hk : k = i
      · subst hk
        simp [cacheInsert, cacheLookup, hij]
      · by_cases hj : k = j
        · subst hj
          simp [cacheInsert, cacheLookup, hk]
        · simp [cacheInsert, cacheLookup, hk, hj, ih]

/-! ### Resolution and sorting lemmas -/

theorem resolveUsages_fst (c : Cache) (l : List Token) :
    ((resolveUsages c l).2).map Prod.fst = l := by
  induction l generalizing c with
  | nil => rfl
  | cons t ts ih => simp [resolveUsages, ih]

theorem resolveUsages_allCached (c : Cache) (l : List Token)
    (h : ∀ t ∈ l, (cacheLookup c t.id).isSome = true) :
    resolveUsages c l = (c, l.map (fun t => (t, usageOf c t))) := by
  induction l with
  | nil => rfl
  | cons t ts ih =>
      have ht : (cacheLookup c t.id).isSome = true := h t (by simp)
      obtain ⟨v, hv⟩ := Option.isSome_iff_exists.mp ht
      have hget : get_cached_usage c t.id (t.usage_count.getD 0) = (c, v) := by
        simp [get_cached_usage, hv]
      have hu : usageOf c t = v := by simp [usageOf, hv]
      simp [resolveUsages, hget, hu, ih (fun x hx => h x (by simp [hx]))]

theorem insUsage_head (p : Token × Nat) (s : List (Token × Nat)) :
    (insUsage p s).head? =
      some (match s.head? with
            | none => p
            | some q => if p.2 ≤ q.2 then p else q) := by
  cases s with
  | nil => rfl
  | cons q qs =>
      by_cases h : p.2 ≤ q.2
      · simp [insUsage, h]
      · simp [insUsage, h]

theorem sortByUsage_head (l : List (Token × Nat)) :
    (sortByUsage l).head? = firstMinPair l := by
  induction l with
  | nil => rfl
  | cons p ps ih =>
      rw [sortByUsage, insUsage_head, ih, firstMinPair]
      cases firstMinPair ps with
      | none => rfl
      | some q =>
          by_cases h : p.2 ≤ q.2
          · simp [h]
          · simp [h]

theorem mem_insUsage (p q : Token × Nat) (s : List (Token × Nat)) :
    q ∈ insUsage p s ↔ q = p ∨ q ∈ s := by
  induction s with
  | nil => simp [insUsage]
  | cons r rs ih =>
      by_cases h : p.2 ≤ r.2
      · simp [insUsage, h]
      · simp [insUsage, h, ih]
        tauto

theorem mem_sortByUsage (q : Token × Nat) (l : List (Token × Nat)) :
    q ∈ sortByUsage l ↔ q ∈ l := by
  induction l with
  | nil => simp [sortByUsage]
  | cons p ps ih => simp [sortByUsage, mem_insUsage, ih]

theorem firstMinToken_cons_isSome (c : Cache) (t : Token) (ts : List Token) :
    (firstMinToken c (t :: ts)).isSome = true := by
  rw [firstMinToken]
  cases firstMinToken c ts with
  | none => rfl
  | some q => by_cases h : usageOf c t ≤ usageOf c q <;> simp [h]

theorem firstMinToken_min (c : Cache) : ∀ (l : List Token) (m : Token),
    firstMinToken c l = some m → ∀ t ∈ l, usageOf c m ≤ usageOf c t := by
  intro l
  induction l with
  | nil => intro m h; simp [firstMinToken] at h
  | cons t ts ih =>
      intro m h
      rw [firstMinToken] at h
      cases hrec : firstMinToken c ts with
      | none =>
          rw [hrec] at h
          have hm : t = m := by injection h
          subst hm
          intro x hx
          rcases List.mem_cons.mp hx with hx | hx
          · subst hx; exact le_refl _
          · exfalso
            cases ts with
            | nil => simp at hx
            | cons u us =>
                have hs := firstMinToken_cons_isSome c u us
                rw [hrec] at hs
                simp at hs
      | some q =>
          rw [hrec] at h
          have h2 : (if usageOf c t ≤ usageOf c q then some t else some q) = some m := h
          by_cases hle : usageOf c t ≤ usageOf c q
          · rw [if_pos hle] at h2
            have hm : t = m := by injection h2
            subst hm
            intro x hx
            rcases List.mem_cons.mp hx with hx | hx
            · subst hx; exact le_refl _
            · exact le_trans hle (ih q hrec x hx)
          · rw [if_neg hle] at h2
            have hm : q = m := by injection h2
            subst hm
            intro x hx
            rcases List.mem_cons.mp hx with hx | hx
            · subst hx; exact le_of_lt (lt_of_not_le hle)
            · exact ih q hrec x hx

theorem firstMinToken_mem (c : Cache) : ∀ (l : List Token) (m : Token),
    firstMinToken c l = some m → m ∈ l := by
  intro l
  induction l with
  | nil => intro m h; simp [firstMinToken] at h
  | cons t ts ih =>
      intro m h
      rw [firstMinToken] at h
      cases hrec : firstMinToken c ts with
      | none =>
          rw [hrec] at h
          have hm : t = m := by injection h
          subst hm
          simp
      | some q =>
          rw [hrec] at h
          have h2 : (if usageOf c t ≤ usageOf c q then some t else some q) = some m := h
          by_cases hle : usageOf c t ≤ usageOf c q
          · rw [if_pos hle] at h2
            have hm : t = m := by injection h2
            subst hm
            simp
          · rw [if_neg hle] at h2
            have hm : q = m := by injection h2
            subst hm
            exact List.mem_cons_of_mem _ (ih q hrec)

theorem firstMinPair_map (c : Cache) (l : List Token) :
    firstMinPair (l.map (fun t => (t, usageOf c t))) =
      (firstMinToken c l).map (fun t => (t, usageOf c t)) := by
  induction l with
  | nil => rfl
  | cons t ts ih =>
      rw [List.map_cons, firstMinPair, ih, firstMinToken]
      cases firstMinToken c ts with
      | none => rfl
      | some q =>
          by_cases h : usageOf c t ≤ usageOf c q
          · simp [h]
          · simp [h]

/-- Full characterization of the round-robin critical section when every
counter of every candidate is cached: the first minimal candidate is selected and
only its counter is bumped. -/
theorem roundRobinCritical_cached (c : Cache) (l : List Token) (hne : l ≠ [])
    (hc : ∀ t ∈ l, (cacheLookup c t.id).isSome = true) :
    ∃ m, firstMinToken c l = some m ∧
      roundRobinCritical c l = (cacheInsert c m.id (usageOf c m + 1), some m) := by
  cases l with
  | nil => exact absurd rfl hne
  | cons t ts =>
      have hres := resolveUsages_allCached c (t :: ts) hc
      have hhead := sortByUsage_head ((t :: ts).map (fun x => (x, usageOf c x)))
      rw [firstMinPair_map] at hhead
      cases hfm : firstMinToken c (t :: ts) with
      | none =>
          have hs := firstMinToken_cons_isSome c t ts
          rw [hfm] at hs
          simp at hs
      | some m =>
          refine ⟨m, rfl, ?_⟩
          rw [hfm] at hhead
          have hh2 : (sortByUsage ((t :: ts).map (fun x => (x, usageOf c x)))).head? =
              some (m, usageOf c m) := hhead
          cases hsort : sortByUsage ((t :: ts).map (fun x => (x, usageOf c x))) with
          | nil => rw [hsort] at hh2; simp at hh2
          | cons p rest =>
              rw [hsort] at hh2
              have hp : p = (m, usageOf c m) := by
                have hh3 : some p = some (m, usageOf c m) := hh2
                injection hh3
              subst hp
              simp only [roundRobinCritical, hres, hsort]

/-! ### Selection-path lemmas -/

theorem nthToken_mem : ∀ (l : List Token) (n : Nat) (t : Token),
    nthToken l n = some t → t ∈ l := by
  intro l
  induction l with
  | nil => intro n t h; simp [nthToken] at h
  | cons x xs ih =>
      intro n t h
      cases n with
      | zero =>
          have hx : x = t := by
            have h2 : some x = some t := h
            injection h2
          subst hx
          simp
      | succ k => exact List.mem_cons_of_mem _ (ih k t h)

theorem randomChoice_mem (n : Nat) (l : List Token) (t : Token)
    (h : randomChoice n l = some t) : t ∈ l :=
  nthToken_mem l (n % l.length) t h

theorem roundRobinCritical_mem (c : Cache) (l : List Token) (c2 : Cache)
    (t : Token) (h : roundRobinCritical c l = (c2, some t)) : t ∈ l := by
  cases l with
  | nil =>
      have h2 : ((c, none) : Cache × Option Token) = (c2, some t) := h
      have := congrArg Prod.snd h2
      simp at this
  | cons x xs =>
      rw [roundRobinCritical] at h
      cases hsort : sortByUsage (resolveUsages c (x :: xs)).2 with
      | nil =>
          rw [hsort] at h
          have := congrArg Prod.snd h
          simp at this
      | cons p rest =>
          rw [hsort] at h
          have hpt : p.1 = t := by
            have := congrArg Prod.snd h
            simpa using this
          have hmem : p ∈ sortByUsage (resolveUsages c (x :: xs)).2 := by
            rw [hsort]; simp
          have hmem2 : p ∈ (resolveUsages c (x :: xs)).2 :=
            (mem_sortByUsage p _).mp hmem
          have : p.1 ∈ ((resolveUsages c (x :: xs)).2).map Prod.fst :=
            List.mem_map_of_mem Prod.fst hmem2
          rw [resolveUsages_fst] at this
          rw [hpt] at this
          exact this

theorem pickByMode_mem (sm : Except String String) (ci : Nat) (cache : Cache)
    (renewed refreshed : List Nat) (pool : List Token) (out : SelectOutcome)
    (t : Token) (h : pickByMode sm ci cache renewed refreshed pool = Except.ok out)
    (hc : out.chosen = some t) : t ∈ pool := by
  unfold pickByMode at h
  split at h
  · cases h
  · split at h
    · have hout : out = ⟨(select_round_robin cache pool).1,
          (select_round_robin cache pool).2.1, renewed, refreshed,
          (select_round_robin cache pool).2.2⟩ := by
        injection h with h2
        exact h2.symm
      rw [hout] at hc
      have hc2 : (roundRobinCritical cache pool).2 = some t := hc
      exact roundRobinCritical_mem cache pool (roundRobinCritical cache pool).1 t
        (by
          have he : roundRobinCritical cache pool =
              ((roundRobinCritical cache pool).1,
                (roundRobinCritical cache pool).2) := rfl
          rw [he, hc2])
    · have hout : out = ⟨cache, randomChoice ci pool, renewed, refreshed, none⟩ := by
        injection h with h2
        exact h2.symm
      rw [hout] at hc
      exact randomChoice_mem ci pool t hc

theorem pickByMode_logs (sm : Except String String) (ci : Nat) (cache : Cache)
    (renewed refreshed : List Nat) (pool : List Token) (out : SelectOutcome)
    (h : pickByMode sm ci cache renewed refreshed pool = Except.ok out) :
    out.renewed = renewed ∧ out.refreshed = refreshed := by
  unfold pickByMode at h
  split at h
  · cases h
  · split at h
    · injection h with h2
      rw [← h2]
      exact ⟨rfl, rfl⟩
    · injection h with h2
      rw [← h2]
      exact ⟨rfl, rfl⟩

theorem pickByMode_ok (sm : Except String String) (m : String) (ci : Nat)
    (cache : Cache) (renewed refreshed : List Nat) (pool : List Token)
    (hm : sm = Except.ok m) :
    ∃ out, pickByMode sm ci cache renewed refreshed pool = Except.ok out := by
  subst hm
  by_cases h : m = "round_robin"
  · refine ⟨⟨(select_round_robin cache pool).1, (select_round_robin cache pool).2.1,
      renewed, refreshed, (select_round_robin cache pool).2.2⟩, ?_⟩
    simp [pickByMode, h]
  · refine ⟨⟨cache, randomChoice ci pool, renewed, refreshed, none⟩, ?_⟩
    simp [pickByMode, h]

theorem filterImage_mem (iL : Nat → Bool) (hCM : Bool) (cUI : Nat → Bool)
    (l : List Token) (t : Token) (h : t ∈ filterImage iL hCM cUI l) :
    t ∈ l ∧ t.image_enabled = true ∧ iL t.id = false ∧
      (hCM = true → cUI t.id = true) := by
  unfold filterImage at h
  have h2 := List.mem_filter.mp h
  have h3 := h2.2
  simp only [Bool.and_eq_true, Bool.or_eq_true, Bool.not_eq_true'] at h3
  refine ⟨h2.1, h3.1.1, h3.1.2, ?_⟩
  intro hcm
  rcases h3.2 with hh | hh
  · rw [hcm] at hh; cases hh
  · exact hh

theorem postVideoStage_mem (iL : Nat → Bool) (hCM : Bool) (cUI cUV : Nat → Bool)
    (sm : Except String String) (ci : Nat) (cache : Cache) (fi fv : Bool)
    (renewed refreshed : List Nat) (pool : List Token) (out : SelectOutcome)
    (t : Token)
    (h : postVideoStage iL hCM cUI cUV sm ci cache fi fv renewed refreshed pool =
      Except.ok out)
    (hc : out.chosen = some t) :
    t ∈ pool ∧ (fi = true → t ∈ filterImage iL hCM cUI pool) := by
  unfold postVideoStage at h
  by_cases hfi : fi = true
  · rw [if_pos hfi] at h
    by_cases he : (filterImage iL hCM cUI pool).isEmpty = true
    · rw [if_pos he] at h
      injection h with h2
      rw [← h2] at hc
      cases hc
    · rw [if_neg he] at h
      have hmem := pickByMode_mem sm ci cache renewed refreshed _ out t h hc
      exact ⟨(filterImage_mem iL hCM cUI pool t hmem).1, fun _ => hmem⟩
  · have hfi2 : fi = false := by
      cases fi
      · rfl
      · exact absurd rfl hfi
    rw [hfi2] at h
    simp only [Bool.false_eq_true, if_false] at h
    by_cases hcv : (fv && hCM) = true
    · rw [if_pos hcv] at h
      by_cases he : (pool.filter (fun x => cUV x.id)).isEmpty = true
      · rw [if_pos he] at h
        injection h with h2
        rw [← h2] at hc
        cases hc
      · rw [if_neg he] at h
        have hmem := pickByMode_mem sm ci cache renewed refreshed _ out t h hc
        refine ⟨List.mem_of_mem_filter hmem, ?_⟩
        intro hh
        rw [hfi2] at hh
        cases hh
    · rw [if_neg hcv] at h
      have hmem := pickByMode_mem sm ci cache renewed refreshed _ out t h hc
      refine ⟨hmem, ?_⟩
      intro hh
      rw [hfi2] at hh
      cases hh

theorem postVideoStage_logs (iL : Nat → Bool) (hCM : Bool) (cUI cUV : Nat → Bool)
    (sm : Except String String) (ci : Nat) (cache : Cache) (fi fv : Bool)
    (renewed refreshed : List Nat) (pool : List Token) (out : SelectOutcome)
    (h : postVideoStage iL hCM cUI cUV sm ci cache fi fv renewed refreshed pool =
      Except.ok out) :
    out.renewed = renewed ∧ out.refreshed = refreshed := by
  unfold postVideoStage at h
  by_cases hfi : fi = true
  · rw [if_pos hfi] at h
    by_cases he : (filterImage iL hCM cUI pool).isEmpty = true
    · rw [if_pos he] at h
      injection h with h2
      rw [← h2]
      exact ⟨rfl, rfl⟩
    · rw [if_neg he] at h
      exact pickByMode_logs sm ci cache renewed refreshed _ out h
  · have hfi2 : fi = false := by
      cases fi
      · rfl
      · exact absurd rfl hfi
    rw [hfi2] at h
    simp only [Bool.false_eq_true, if_false] at h
    by_cases hcv : (fv && hCM) = true
    · rw [if_pos hcv] at h
      by_cases he : (pool.filter (fun x => cUV x.id)).isEmpty = true
      · rw [if_pos he] at h
        injection h with h2
        rw [← h2]
        exact ⟨rfl, rfl⟩
      · rw [if_neg he] at h
        exact pickByMode_logs sm ci cache renewed refreshed _ out h
    · rw [if_neg hcv] at h
      exact pickByMode_logs sm ci cache renewed refreshed _ out h

theorem videoDecide_some (now : Int) (tok : Option Token) (refreshed r2 : List Nat)
    (k : Token) (h : videoDecide now tok refreshed = (some k, r2)) :
    r2 = refreshed ∧ cooldownFuture now k = false ∧ tok = some k := by
  cases tok with
  | none =>
      have h2 : ((none, refreshed) : Option Token × List Nat) = (some k, r2) := h
      have := congrArg Prod.fst h2
      simp at this
  | some t2 =>
      by_cases hcool : cooldownFuture now t2 = true
      · simp [videoDecide, hcool] at h
      · simp [videoDecide, hcool] at h
        obtain ⟨h1, h2⟩ := h
        subst h1
        exact ⟨h2.symm, by simpa using hcool, rfl⟩

theorem videoDecide_snd (now : Int) (tok : Option Token) (refreshed : List Nat) :
    (videoDecide now tok refreshed).2 = refreshed := by
  cases tok with
  | none => rfl
  | some t2 =>
      by_cases hcool : cooldownFuture now t2 = true
      · simp [videoDecide, hcool]
      · simp [videoDecide, hcool]

theorem videoStep_some (now : Int) (rQ : Nat → Except String Unit)
    (gT : Nat → Except String (Option Token)) (t k : Token) (refr : List Nat)
    (h : videoStep now rQ gT t = Except.ok (some k, refr)) :
    cooldownFuture now k = false ∧
      ((k = t ∧ t.video_enabled = true ∧ t.sora2_supported = true) ∨
        gT t.id = Except.ok (some k)) := by
  unfold videoStep at h
  split at h
  · injection h with h2
    have := congrArg Prod.fst h2
    simp at this
  · split at h
    · injection h with h2
      have := congrArg Prod.fst h2
      simp at this
    · rename_i hv hs
      have hv2 : t.video_enabled = true := by
        simpa using hv
      have hs2 : t.sora2_supported = true := by
        simpa using hs
      split at h
      · rename_i c hcool
        split at h
        · split at h
          · cases h
          · split at h
            · cases h
            · rename_i hgt
              injection h with h2
              obtain ⟨hr, hcf, htok⟩ := videoDecide_some now _ _ refr k h2
              refine ⟨hcf, Or.inr ?_⟩
              rw [htok] at hgt
              exact hgt
        · injection h with h2
          obtain ⟨hr, hcf, htok⟩ := videoDecide_some now _ _ refr k h2
          have hkt : t = k := by injection htok
          subst hkt
          exact ⟨hcf, Or.inl ⟨rfl, hv2, hs2⟩⟩
      · injection h with h2
        obtain ⟨hr, hcf, htok⟩ := videoDecide_some now _ _ refr k h2
        have hkt : t = k := by injection htok
        subst hkt
        exact ⟨hcf, Or.inl ⟨rfl, hv2, hs2⟩⟩

theorem videoStep_refreshed (now : Int) (rQ : Nat → Except String Unit)
    (gT : Nat → Except String (Option Token)) (t : Token) (c : Int)
    (res : Option Token × List Nat)
    (hv : t.video_enabled = true) (hs : t.sora2_supported = true)
    (hcd : t.sora2_cooldown_until = some c) (hle : c ≤ now)
    (h : videoStep now rQ gT t = Except.ok res) : res.2 = [t.id] := by
  unfold videoStep at h
  rw [hv, hs, hcd] at h
  simp only [Bool.not_true, Bool.false_eq_true, if_false] at h
  rw [if_pos hle] at h
  cases hq : rQ t.id with
  | error e => rw [hq] at h; cases h
  | ok u =>
      rw [hq] at h
      cases hg : gT t.id with
      | error e => rw [hg] at h; cases h
      | ok tok =>
          rw [hg] at h
          injection h with h2
          rw [← h2]
          exact videoDecide_snd now tok [t.id]

theorem videoStep_ok (now : Int) (rQ : Nat → Except String Unit)
    (gT : Nat → Except String (Option Token)) (t : Token)
    (hq : rQ t.id = Except.ok ()) (hg : ∃ r, gT t.id = Except.ok r) :
    ∃ res, videoStep now rQ gT t = Except.ok res := by
  obtain ⟨r, hg⟩ := hg
  unfold videoStep
  split
  · exact ⟨_, rfl⟩
  · split
    · exact ⟨_, rfl⟩
    · split
      · split
        · rw [hq, hg]
          exact ⟨_, rfl⟩
        · exact ⟨_, rfl⟩
      · exact ⟨_, rfl⟩

theorem filterVideo_mem (now : Int) (rQ : Nat → Except String Unit)
    (gT : Nat → Except String (Option Token)) :
    ∀ (l kept : List Token) (refr : List Nat),
      filterVideo now rQ gT l = Except.ok (kept, refr) →
      ∀ k ∈ kept, cooldownFuture now k = false ∧
        ((k ∈ l ∧ k.video_enabled = true ∧ k.sora2_supported = true) ∨
          ∃ i, gT i = Except.ok (some k)) := by
  intro l
  induction l with
  | nil =>
      intro kept refr h k hk
      have h2 : (Except.ok (([] : List Token), ([] : List Nat)) :
          Except String (List Token × List Nat)) = Except.ok (kept, refr) := h
      injection h2 with h3
      have hke : kept = [] := (congrArg Prod.fst h3).symm
      rw [hke] at hk
      simp at hk
  | cons t ts ih =>
      intro kept refr h k hk
      rw [filterVideo] at h
      cases hstep : videoStep now rQ gT t with
      | error e => rw [hstep] at h; cases h
      | ok res =>
          obtain ⟨kept0, r0⟩ := res
          rw [hstep] at h
          cases hrec : filterVideo now rQ gT ts with
          | error e => rw [hrec] at h; cases h
          | ok res2 =>
              obtain ⟨rest, r1⟩ := res2
              rw [hrec] at h
              injection h with h2
              have hkept := congrArg Prod.fst h2
              simp only [] at hkept
              cases kept0 with
              | none =>
                  rw [← hkept] at hk
                  obtain ⟨hcf, hor⟩ := ih rest r1 hrec k hk
                  refine ⟨hcf, ?_⟩
                  rcases hor with ⟨hm, hrest⟩ | hg
                  · exact Or.inl ⟨List.mem_cons_of_mem _ hm, hrest⟩
                  · exact Or.inr hg
              | some k0 =>
                  rw [← hkept] at hk
                  rcases List.mem_cons.mp hk with hk | hk
                  · subst hk
                    obtain ⟨hcf, hor⟩ := videoStep_some now rQ gT t k r0 hstep
                    refine ⟨hcf, ?_⟩
                    rcases hor with ⟨hkt, hv, hs⟩ | hg
                    · subst hkt
                      exact Or.inl ⟨List.mem_cons_self k ts, hv, hs⟩
                    · exact Or.inr ⟨t.id, hg⟩
                  · obtain ⟨hcf, hor⟩ := ih rest r1 hrec k hk
                    refine ⟨hcf, ?_⟩
                    rcases hor with ⟨hm, hrest⟩ | hg
                    · exact Or.inl ⟨List.mem_cons_of_mem _ hm, hrest⟩
                    · exact Or.inr hg

theorem filterVideo_refreshed (now : Int) (rQ : Nat → Except String Unit)
    (gT : Nat → Except String (Option Token)) :
    ∀ (l kept : List Token) (refr : List Nat) (t : Token) (c : Int),
      t ∈ l → t.video_enabled = true → t.sora2_supported = true →
      t.sora2_cooldown_until = some c → c ≤ now →
      filterVideo now rQ gT l = Except.ok (kept, refr) →
      t.id ∈ refr := by
  intro l
  induction l with
  | nil => intro kept refr t c hm; simp at hm
  | cons x xs ih =>
      intro kept refr t c hm hv hs hcd hle h
      rw [filterVideo] at h
      cases hstep : videoStep now rQ gT x with
      | error e => rw [hstep] at h; cases h
      | ok res =>
          obtain ⟨kept0, r0⟩ := res
          rw [hstep] at h
          cases hrec : filterVideo now rQ gT xs with
          | error e => rw [hrec] at h; cases h
          | ok res2 =>
              obtain ⟨rest, r1⟩ := res2
              rw [hrec] at h
              injection h with h2
              have hrefr := congrArg Prod.snd h2
              simp only [] at hrefr
              rcases List.mem_cons.mp hm with hm | hm
              · subst hm
                have hr0 := videoStep_refreshed now rQ gT t c (kept0, r0) hv hs hcd hle hstep
                simp only [] at hr0
                rw [← hrefr, hr0]
                simp
              · have := ih rest r1 t c hm hv hs hcd hle hrec
                rw [← hrefr]
                exact List.mem_append_right r0 this

theorem filterVideo_ok (now : Int) (rQ : Nat → Except String Unit)
    (gT : Nat → Except String (Option Token))
    (hq : ∀ i, rQ i = Except.ok ()) (hg : ∀ i, ∃ r, gT i = Except.ok r) :
    ∀ l : List Token, ∃ res, filterVideo now rQ gT l = Except.ok res := by
  intro l
  induction l with
  | nil => exact ⟨([], []), rfl⟩
  | cons t ts ih =>
      obtain ⟨res, hres⟩ := videoStep_ok now rQ gT t (hq t.id) (hg t.id)
      obtain ⟨res2, hres2⟩ := ih
      rw [filterVideo, hres, hres2]
      exact ⟨_, rfl⟩

theorem postVideoStage_ok (iL : Nat → Bool) (hCM : Bool) (cUI cUV : Nat → Bool)
    (sm : Except String String) (m : String) (ci : Nat) (cache : Cache)
    (fi fv : Bool) (renewed refreshed : List Nat) (pool : List Token)
    (hm : sm = Except.ok m) :
    ∃ out, postVideoStage iL hCM cUI cUV sm ci cache fi fv renewed refreshed pool =
      Except.ok out := by
  unfold postVideoStage
  by_cases hfi : fi = true
  · rw [if_pos hfi]
    by_cases he : (filterImage iL hCM cUI pool).isEmpty = true
    · rw [if_pos he]
      exact ⟨_, rfl⟩
    · rw [if_neg he]
      exact pickByMode_ok sm m ci cache renewed refreshed _ hm
  · have hfi2 : fi = false := by
      cases fi
      · rfl
      · exact absurd rfl hfi
    rw [hfi2]
    simp only [Bool.false_eq_true, if_false]
    by_cases hcv : (fv && hCM) = true
    · rw [if_pos hcv]
      by_cases he : (pool.filter (fun x => cUV x.id)).isEmpty = true
      · rw [if_pos he]
        exact ⟨_, rfl⟩
      · rw [if_neg he]
        exact pickByMode_ok sm m ci cache renewed refreshed _ hm
    · rw [if_neg hcv]
      exact pickByMode_ok sm m ci cache renewed refreshed _ hm

theorem proStage_pro (active pool : List Token)
    (h : proStage true active = some pool) :
    ∀ t ∈ pool, t.plan_type = "chatgpt_pro" := by
  unfold proStage at h
  by_cases he : (active.filter (fun t => t.plan_type = "chatgpt_pro")).isEmpty = true
  · simp only [if_true, he] at h
    cases h
  · simp only [if_true, he, Bool.false_eq_true, if_false] at h
    injection h with h2
    intro t ht
    rw [← h2] at ht
    have := (List.mem_filter.mp ht).2
    simpa using this

/-- Where a chosen token can come from: it survived the plan filter, and —
when video was required — the video filter; when image was required it also
survived the image filter. -/
theorem select_token_chosen (env : Env) (cache : Cache) (fi fv rp : Bool)
    (out : SelectOutcome) (t : Token)
    (h : select_token env cache fi fv rp = Except.ok out)
    (hc : out.chosen = some t) :
    ∃ active pool, env.getActiveTokens = Except.ok active ∧
      proStage rp active = some pool ∧
      ((∃ kept refr, fv = true ∧
          filterVideo env.now env.refreshQuota env.getToken pool =
            Except.ok (kept, refr) ∧
          t ∈ kept ∧
          (fi = true →
            t ∈ filterImage env.is_locked env.hasConcurrencyManager
              env.can_use_image kept)) ∨
       (fv = false ∧ t ∈ pool ∧
          (fi = true →
            t ∈ filterImage env.is_locked env.hasConcurrencyManager
              env.can_use_image pool))) := by
  unfold select_token at h
  split at h
  · cases h
  · rename_i renewed heqr
    split at h
    · cases h
    · rename_i active heqa
      refine ⟨active, ?_⟩
      split at h
      · injection h with h2
        rw [← h2] at hc
        exact absurd hc (by simp)
      · split at h
        · injection h with h2
          rw [← h2] at hc
          exact absurd hc (by simp)
        · rename_i pool heqp
          refine ⟨pool, heqa, heqp, ?_⟩
          split at h
          · rename_i hfv
            split at h
            · cases h
            · rename_i kept refr heqv
              split at h
              · injection h with h2
                rw [← h2] at hc
                exact absurd hc (by simp)
              · obtain ⟨hmem, himg⟩ := postVideoStage_mem env.is_locked
                  env.hasConcurrencyManager env.can_use_image env.can_use_video
                  env.schedulingMode env.choiceIdx cache fi fv renewed refr kept
                  out t h hc
                exact Or.inl ⟨kept, refr, hfv, heqv, hmem, himg⟩
          · rename_i hfv
            obtain ⟨hmem, himg⟩ := postVideoStage_mem env.is_locked
              env.hasConcurrencyManager env.can_use_image env.can_use_video
              env.schedulingMode env.choiceIdx cache fi fv renewed [] pool
              out t h hc
            exact Or.inr ⟨by simpa using hfv, hmem, himg⟩

theorem renewalStep_ok (enabled : Bool) (getAll : Except String (List Token))
    (now : Int) (la : List Token) (hall : getAll = Except.ok la) :
    renewalStep enabled getAll now =
      Except.ok (if enabled then renewalPass now la else []) := by
  subst hall
  unfold renewalStep
  by_cases h : enabled = true
  · simp [h]
  · simp [h]

/-- On every successful call, the renewal-trigger list in the outcome is
exactly what the renewal step produced. -/
theorem select_token_renewed (env : Env) (cache : Cache) (fi fv rp : Bool)
    (out : SelectOutcome) (renewed : List Nat)
    (hR : renewalStep env.at_auto_refresh_enabled env.getAllTokens env.now =
      Except.ok renewed)
    (h : select_token env cache fi fv rp = Except.ok out) :
    out.renewed = renewed := by
  unfold select_token at h
  split at h
  · rename_i e heqe
    rw [hR] at heqe
    cases heqe
  · rename_i renewed2 heqr
    rw [hR] at heqr
    have hrr : renewed2 = renewed := by
      injection heqr with h2
      exact h2.symm
    subst hrr
    split at h
    · cases h
    · rename_i active heqa
      split at h
      · injection h with h2
        rw [← h2]
      · split at h
        · injection h with h2
          rw [← h2]
        · rename_i pool heqp
          split at h
          · split at h
            · cases h
            · rename_i kept refr heqv
              split at h
              · injection h with h2
                rw [← h2]
              · exact (postVideoStage_logs env.is_locked env.hasConcurrencyManager
                  env.can_use_image env.can_use_video env.schedulingMode
                  env.choiceIdx cache fi fv renewed2 refr kept out h).1
          · exact (postVideoStage_logs env.is_locked env.hasConcurrencyManager
              env.can_use_image env.can_use_video env.schedulingMode
              env.choiceIdx cache fi fv renewed2 [] pool out h).1

/-- When every collaborator call succeeds, `select_token` raises nothing. -/
theorem select_token_ok (env : Env) (cache : Cache) (fi fv rp : Bool)
    (hall : ∃ l, env.getAllTokens = Except.ok l)
    (hact : ∃ l, env.getActiveTokens = Except.ok l)
    (hrq : ∀ i, env.refreshQuota i = Except.ok ())
    (hgt : ∀ i, ∃ r, env.getToken i = Except.ok r)
    (hm : ∃ m, env.schedulingMode = Except.ok m) :
    ∃ out, select_token env cache fi fv rp = Except.ok out := by
  obtain ⟨la, hall⟩ := hall
  obtain ⟨active, hA⟩ := hact
  obtain ⟨m, hm⟩ := hm
  have hR := renewalStep_ok env.at_auto_refresh_enabled env.getAllTokens env.now la hall
  unfold select_token
  rw [hR, hA]
  dsimp only
  by_cases hae : active.isEmpty = true
  · rw [if_pos hae]
    exact ⟨_, rfl⟩
  · rw [if_neg hae]
    cases hP : proStage rp active with
    | none => exact ⟨_, rfl⟩
    | some pool =>
        dsimp only
        by_cases hfv : fv = true
        · subst hfv
          simp only [if_true]
          obtain ⟨⟨kept, refr⟩, hV⟩ :=
            filterVideo_ok env.now env.refreshQuota env.getToken hrq hgt pool
          rw [hV]
          dsimp only
          by_cases hke : kept.isEmpty = true
          · rw [if_pos hke]
            exact ⟨_, rfl⟩
          · rw [if_neg hke]
            obtain ⟨out, hout⟩ := postVideoStage_ok env.is_locked
              env.hasConcurrencyManager env.can_use_image env.can_use_video
              env.schedulingMode m env.choiceIdx cache fi true
              (if env.at_auto_refresh_enabled = true then renewalPass env.now la else [])
              refr kept hm
            rw [hout]
            exact ⟨_, rfl⟩
        · have hfv2 : fv = false := by
            cases fv
            · rfl
            · exact absurd rfl hfv
          subst hfv2
          simp only [Bool.false_eq_true, if_false]
          obtain ⟨out, hout⟩ := postVideoStage_ok env.is_locked
            env.hasConcurrencyManager env.can_use_image env.can_use_video
            env.schedulingMode m env.choiceIdx cache fi false
            (if env.at_auto_refresh_enabled = true then renewalPass env.now la else [])
            [] pool hm
          rw [hout]
          exact ⟨_, rfl⟩

theorem needsRenewal_spec (now : Int) (t : Token) (h : needsRenewal now t = true) :
    t.is_active = true ∧ ∃ e, t.expiry_time = some e ∧ e - now ≤ 24 * 3600 := by
  unfold needsRenewal at h
  rw [Bool.and_eq_true] at h
  refine ⟨h.1, ?_⟩
  have h2 := h.2
  cases he : t.expiry_time with
  | none => rw [he] at h2; exact absurd h2 (by simp)
  | some e =>
      rw [he] at h2
      exact ⟨e, rfl, by simpa using h2⟩

/-! ### Claim theorems -/

/-- C1 fails as stated: in a video selection, the token re-read from the
registry after the cooldown refresh is not re-checked for its capabilities.
Here the pool holds one fully capable Pro token whose past cooldown triggers
the refresh, the registry re-read returns a record for the same id with
`video_enabled = false`, `sora2_supported = false` and a non-Pro plan, and
`select_token` with `for_video_generation = true` returns that record. -/
theorem c1_counterexample :
    select_token envReload [] false true false =
      Except.ok ⟨[], some tokDegraded, [], [1], none⟩ ∧
    tokDegraded.video_enabled = false ∧ tokDegraded.sora2_supported = false ∧
    tokDegraded.plan_type ≠ "chatgpt_pro" :=
  ⟨rfl, rfl, rfl, by decide⟩

/-- C1 amended: every returned token has the image capability whenever
`for_image_generation` is true, on every path including registry re-reads
(the image filter runs after the video filter); with `require_pro` and no
video filtering the returned token has the Pro plan; and for a video
selection the `video_enabled`/`sora2_supported` flags of the returned token (and, with
`require_pro`, Pro plan) are guaranteed provided every token the registry
re-read hands back itself has those capabilities — without that assumption a
re-read token is not re-checked (see the counterexample). -/
theorem c1_capability_filters (env : Env) (cache : Cache) (fi fv rp : Bool)
    (out : SelectOutcome) (t : Token)
    (h : select_token env cache fi fv rp = Except.ok out)
    (hc : out.chosen = some t) :
    (fi = true → t.image_enabled = true) ∧
    (rp = true → fv = false → t.plan_type = "chatgpt_pro") ∧
    ((∀ i t2, env.getToken i = Except.ok (some t2) →
        t2.video_enabled = true ∧ t2.sora2_supported = true ∧
        (rp = true → t2.plan_type = "chatgpt_pro")) →
      (fv = true → t.video_enabled = true ∧ t.sora2_supported = true) ∧
      (rp = true → t.plan_type = "chatgpt_pro")) := by
  obtain ⟨active, pool, hA, hP, hcase⟩ :=
    select_token_chosen env cache fi fv rp out t h hc
  refine ⟨?_, ?_, ?_⟩
  · intro hfi
    rcases hcase with ⟨kept, refr, hfv, hV, hmem, himg⟩ | ⟨hfv, hmem, himg⟩
    · exact (filterImage_mem _ _ _ kept t (himg hfi)).2.1
    · exact (filterImage_mem _ _ _ pool t (himg hfi)).2.1
  · intro hrp hfv0
    rcases hcase with ⟨kept, refr, hfv, hV, hmem, himg⟩ | ⟨hfv, hmem, himg⟩
    · rw [hfv0] at hfv
      cases hfv
    · subst hrp
      exact proStage_pro active pool hP t hmem
  · intro hreload
    rcases hcase with ⟨kept, refr, hfv, hV, hmem, himg⟩ | ⟨hfv, hmem, himg⟩
    · obtain ⟨hcf, hor⟩ := filterVideo_mem env.now env.refreshQuota env.getToken
        pool kept refr hV t hmem
      rcases hor with ⟨hpool, hv, hs⟩ | ⟨i, hg⟩
      · refine ⟨fun _ => ⟨hv, hs⟩, ?_⟩
        intro hrp
        subst hrp
        exact proStage_pro active pool hP t hpool
      · obtain ⟨hv2, hs2, hp2⟩ := hreload i t hg
        exact ⟨fun _ => ⟨hv2, hs2⟩, hp2⟩
    · refine ⟨?_, ?_⟩
      · intro hfvt
        rw [hfvt] at hfv
        cases hfv
      · intro hrp
        subst hrp
        exact proStage_pro active pool hP t hmem

theorem c1_capability_filters_witness :
    ((true : Bool) = true → tokHealthy.image_enabled = true) ∧
    ((false : Bool) = true → (false : Bool) = false →
      tokHealthy.plan_type = "chatgpt_pro") ∧
    ((∀ i t2, envHealthy.getToken i = Except.ok (some t2) →
        t2.video_enabled = true ∧ t2.sora2_supported = true ∧
        ((false : Bool) = true → t2.plan_type = "chatgpt_pro")) →
      ((false : Bool) = true →
        tokHealthy.video_enabled = true ∧ tokHealthy.sora2_supported = true) ∧
      ((false : Bool) = true → tokHealthy.plan_type = "chatgpt_pro")) :=
  c1_capability_filters envHealthy [] true false false
    ⟨[], some tokHealthy, [], [], none⟩ tokHealthy rfl rfl

/-- C3: a selection with `for_video_generation = true` never returns a token
whose cooldown-until lies in the future at call time (every chosen token,
re-read or not, has `cooldownFuture` false), and inside the video filter
every candidate with video and Sora2 support whose cooldown is set and
already past has the synchronous quota refresh issued for it — its id is in
the refresh log — with the re-read record deciding whether it is kept. -/
theorem c3_cooldown_discipline :
    (∀ (env : Env) (cache : Cache) (fi rp : Bool) (out : SelectOutcome) (t : Token),
      select_token env cache fi true rp = Except.ok out →
      out.chosen = some t → cooldownFuture env.now t = false) ∧
    (∀ (now : Int) (rQ : Nat → Except String Unit)
        (gT : Nat → Except String (Option Token)) (l kept : List Token)
        (refr : List Nat) (t : Token) (c : Int),
      t ∈ l → t.video_enabled = true → t.sora2_supported = true →
      t.sora2_cooldown_until = some c → c ≤ now →
      filterVideo now rQ gT l = Except.ok (kept, refr) → t.id ∈ refr) := by
  constructor
  · intro env cache fi rp out t h hc
    obtain ⟨active, pool, hA, hP, hcase⟩ :=
      select_token_chosen env cache fi true rp out t h hc
    rcases hcase with ⟨kept, refr, hfv, hV, hmem, _⟩ | ⟨hfv, _, _⟩
    · exact (filterVideo_mem env.now env.refreshQuota env.getToken
        pool kept refr hV t hmem).1
    · cases hfv
  · intro now rQ gT l kept refr t c hm hv hs hcd hle h
    exact filterVideo_refreshed now rQ gT l kept refr t c hm hv hs hcd hle h

theorem c3_cooldown_discipline_witness :
    cooldownFuture envHealthy.now tokHealthy = false ∧
    tokGood.id ∈ [(1 : Nat)] :=
  ⟨c3_cooldown_discipline.1 envHealthy [] false false
    ⟨[], some tokHealthy, [], [], none⟩ tokHealthy rfl rfl,
   c3_cooldown_discipline.2 5 (fun _ => Except.ok ())
    (fun _ => Except.ok (some tokDegraded)) [tokGood] [tokDegraded] [1]
    tokGood 0 (by decide) rfl rfl rfl (by decide) rfl⟩

/-- C7: for every token identifier and registry value, `_get_cached_usage`
returns the existing cached counter unchanged whenever an entry is present,
regardless of the registry value supplied; only when no entry exists does it
create one seeded from the registry value and return that value.  A registry
value never overwrites an existing cache entry. -/
theorem c7_usage_cache_seed (c : Cache) (i db v : Nat) :
    (cacheLookup c i = some v → get_cached_usage c i db = (c, v)) ∧
    (cacheLookup c i = none →
      get_cached_usage c i db = (cacheInsert c i db, db) ∧
      cacheLookup (cacheInsert c i db) i = some db) := by
  constructor
  · intro h
    simp [get_cached_usage, h]
  · intro h
    exact ⟨by simp [get_cached_usage, h], cacheLookup_insert_self c i db⟩

theorem c7_usage_cache_seed_witness :
    get_cached_usage [(1, 5)] 1 99 = ([(1, 5)], 5) ∧
    get_cached_usage [(1, 5)] 2 7 = ([(1, 5), (2, 7)], 7) :=
  ⟨(c7_usage_cache_seed [(1, 5)] 1 99 5).1 rfl,
   ((c7_usage_cache_seed [(1, 5)] 2 7 7).2 rfl).1⟩

/-- C2: on a non-empty candidate list whose counters are all cached, the
round-robin critical section returns the first candidate in input order whose
cached counter is minimal (`firstMinToken`, first-seen-wins on ties — the
head of the stable ascending sort), bumps exactly the cached counter of that token
by one, and leaves every other cache entry unchanged.  On the scenario pool
[T1(counter 3), T2(counter 1), T3(counter 1)] three successive calls return
T2, then T3, then T2, leaving the counters at T1 = 3, T2 = 3, T3 = 2. -/
theorem c2_round_robin :
    (∀ (c : Cache) (l : List Token), l ≠ [] →
      (∀ t ∈ l, (cacheLookup c t.id).isSome = true) →
      ∃ m u, firstMinToken c l = some m ∧ cacheLookup c m.id = some u ∧
        (∀ t ∈ l, u ≤ usageOf c t) ∧
        roundRobinCritical c l = (cacheInsert c m.id (u + 1), some m) ∧
        cacheLookup (cacheInsert c m.id (u + 1)) m.id = some (u + 1) ∧
        (∀ j, j ≠ m.id →
          cacheLookup (cacheInsert c m.id (u + 1)) j = cacheLookup c j)) ∧
    (roundRobinCritical scCache scPool = ([(1, 3), (2, 2), (3, 1)], some scT2) ∧
     roundRobinCritical [(1, 3), (2, 2), (3, 1)] scPool =
       ([(1, 3), (2, 2), (3, 2)], some scT3) ∧
     roundRobinCritical [(1, 3), (2, 2), (3, 2)] scPool =
       ([(1, 3), (2, 3), (3, 2)], some scT2) ∧
     cacheLookup [(1, 3), (2, 3), (3, 2)] 1 = some 3 ∧
     cacheLookup [(1, 3), (2, 3), (3, 2)] 2 = some 3 ∧
     cacheLookup [(1, 3), (2, 3), (3, 2)] 3 = some 2) := by
  constructor
  · intro c l hne hc
    obtain ⟨m, hfm, hrr⟩ := roundRobinCritical_cached c l hne hc
    have hmem := firstMinToken_mem c l m hfm
    obtain ⟨u, hu⟩ := Option.isSome_iff_exists.mp (hc m hmem)
    have huo : usageOf c m = u := by simp [usageOf, hu]
    refine ⟨m, u, hfm, hu, ?_, ?_, ?_, ?_⟩
    · intro t ht
      have := firstMinToken_min c l m hfm t ht
      rw [huo] at this
      exact this
    · rw [← huo]
      exact hrr
    · rw [← huo]
      exact cacheLookup_insert_self c m.id (usageOf c m + 1)
    · intro j hj
      rw [← huo]
      exact cacheLookup_insert_ne c m.id (usageOf c m + 1) j hj
  · exact ⟨rfl, rfl, rfl, rfl, rfl, rfl⟩

theorem c2_round_robin_witness :
    ∃ m u, firstMinToken scCache scPool = some m ∧
      cacheLookup scCache m.id = some u ∧
      (∀ t ∈ scPool, u ≤ usageOf scCache t) ∧
      roundRobinCritical scCache scPool = (cacheInsert scCache m.id (u + 1), some m) ∧
      cacheLookup (cacheInsert scCache m.id (u + 1)) m.id = some (u + 1) ∧
      (∀ j, j ≠ m.id →
        cacheLookup (cacheInsert scCache m.id (u + 1)) j = cacheLookup scCache j) :=
  c2_round_robin.1 scCache scPool (by decide) (by decide)

/-- C6: for the exclusivity lock, a second acquire for the same identifier
within the lease window of a successful acquire always fails (two concurrent
acquires never both succeed, `acquire` being atomic), and once the configured
timeout has elapsed without a release, `isLocked` reports the identifier free
and a new acquire for it succeeds. -/
theorem c6_exclusivity_lock :
    (∀ (st : TokenLockState) (i : Nat) (t1 t2 : Int),
      (tl_acquire st i t1).2 = true → t1 ≤ t2 → t2 - t1 < st.lock_timeout →
      (tl_acquire (tl_acquire st i t1).1 i t2).2 = false) ∧
    (∀ (st : TokenLockState) (i : Nat) (t1 now : Int),
      (tl_acquire st i t1).2 = true → st.lock_timeout ≤ now - t1 →
      tl_is_locked (tl_acquire st i t1).1 i now = false ∧
      (tl_acquire (tl_acquire st i t1).1 i now).2 = true) := by
  have key : ∀ (st : TokenLockState) (i : Nat) (t1 : Int),
      (tl_acquire st i t1).2 = true →
      (tl_acquire st i t1).1 =
        ⟨st.lock_timeout, fun j => if j = i then some t1 else st.leases j⟩ := by
    intro st i t1 h
    unfold tl_acquire at h ⊢
    by_cases hl : tl_is_locked st i t1 = true
    · rw [if_pos hl] at h
      cases h
    · rw [if_neg hl]
  have hlocked : ∀ (st : TokenLockState) (i : Nat) (t1 t2 : Int),
      t2 - t1 < st.lock_timeout →
      tl_is_locked ⟨st.lock_timeout, fun j => if j = i then some t1 else st.leases j⟩
        i t2 = true := by
    intro st i t1 t2 hwin
    unfold tl_is_locked
    simp [hwin]
  have hfree : ∀ (st : TokenLockState) (i : Nat) (t1 now : Int),
      st.lock_timeout ≤ now - t1 →
      tl_is_locked ⟨st.lock_timeout, fun j => if j = i then some t1 else st.leases j⟩
        i now = false := by
    intro st i t1 now hge
    have hnl : ¬ (now - t1 < st.lock_timeout) := not_lt.mpr hge
    unfold tl_is_locked
    simp [hnl]
  constructor
  · intro st i t1 t2 h1 hle hwin
    rw [key st i t1 h1]
    unfold tl_acquire
    rw [if_pos (hlocked st i t1 t2 hwin)]
  · intro st i t1 now h1 hge
    rw [key st i t1 h1]
    refine ⟨hfree st i t1 now hge, ?_⟩
    unfold tl_acquire
    rw [if_neg ?_]
    rw [hfree st i t1 now hge]
    simp

theorem c6_exclusivity_lock_witness :
    (tl_acquire (tl_acquire tlFree 1 0).1 1 5).2 = false ∧
    tl_is_locked (tl_acquire tlFree 1 0).1 1 10 = false ∧
    (tl_acquire (tl_acquire tlFree 1 0).1 1 10).2 = true :=
  ⟨c6_exclusivity_lock.1 tlFree 1 0 5 (by decide) (by decide) (by decide),
   (c6_exclusivity_lock.2 tlFree 1 0 10 (by decide) (by decide)).1,
   (c6_exclusivity_lock.2 tlFree 1 0 10 (by decide) (by decide)).2⟩

/-- C4 fails as stated: `select_token` has no exception handling around the
collaborator awaits.  Here the quota-refresh collaborator raises for the
first candidate while a second, fully usable token sits in the pool; instead
of logging the failure and selecting the healthy token, the call propagates
the exception. -/
theorem c4_counterexample :
    select_token envRefreshFail [] false true false =
      Except.error "refresh failed" ∧
    tokHealthy ∈ [tokGood, tokHealthy] ∧ tokHealthy.is_active = true ∧
    tokHealthy.video_enabled = true ∧ tokHealthy.sora2_supported = true ∧
    tokHealthy.sora2_cooldown_until = none :=
  ⟨rfl, by decide, rfl, rfl, rfl, rfl⟩

/-- C4 amended: `select_token` absorbs only the failure of the fire-and-
forget usage persistence (`_async_increment_db_usage` always completes);
every other collaborator failure — renewal-pass pool fetch, base pool fetch,
quota refresh, registry re-read, scheduling-mode read — propagates as an
exception, and whenever all of those collaborator calls succeed the call
returns normally with a token or `None`. -/
theorem c4_error_propagation (env : Env) (cache : Cache) (fi fv rp : Bool)
    (hall : ∃ l, env.getAllTokens = Except.ok l)
    (hact : ∃ l, env.getActiveTokens = Except.ok l)
    (hrq : ∀ i, env.refreshQuota i = Except.ok ())
    (hgt : ∀ i, ∃ r, env.getToken i = Except.ok r)
    (hm : ∃ m, env.schedulingMode = Except.ok m) :
    (∃ out, select_token env cache fi fv rp = Except.ok out) ∧
    (∀ (inc : Nat → Except String Unit) (tid : Nat),
      async_increment_db_usage inc tid = ()) :=
  ⟨select_token_ok env cache fi fv rp hall hact hrq hgt hm,
   fun _ _ => Subsingleton.elim _ _⟩

theorem c4_error_propagation_witness :
    (∃ out, select_token envHealthy [] false true false = Except.ok out) ∧
    (∀ (inc : Nat → Except String Unit) (tid : Nat),
      async_increment_db_usage inc tid = ()) :=
  c4_error_propagation envHealthy [] false true false ⟨[], rfl⟩
    ⟨[tokHealthy], rfl⟩ (fun _ => rfl) (fun _ => ⟨none, rfl⟩) ⟨"random", rfl⟩

/-- C5: with the auto-refresh flag enabled, the renewal pass triggers a
renewal exactly for the live tokens whose expiry lies within 24 hours —
every triggered id belongs to an active token with an expiry at most 24
hours away — and the selection outcome never depends on the
completion of any renewal (`renewalOutcome`), the trigger being fire-and-forget. -/
theorem c5_renewal_pass :
    (∀ (env : Env) (cache : Cache) (fi fv rp : Bool) (toks : List Token)
        (out : SelectOutcome),
      env.at_auto_refresh_enabled = true →
      env.getAllTokens = Except.ok toks →
      select_token env cache fi fv rp = Except.ok out →
      out.renewed = renewalPass env.now toks ∧
      (∀ i ∈ out.renewed, ∃ t, t ∈ toks ∧ t.id = i ∧ t.is_active = true ∧
        ∃ e, t.expiry_time = some e ∧ e - env.now ≤ 24 * 3600)) ∧
    (∀ (env : Env) (f : Nat → Except String Unit) (cache : Cache) (fi fv rp : Bool),
      select_token { env with renewalOutcome := f } cache fi fv rp =
        select_token env cache fi fv rp) := by
  constructor
  · intro env cache fi fv rp toks out hen hall h
    have hR : renewalStep env.at_auto_refresh_enabled env.getAllTokens env.now =
        Except.ok (renewalPass env.now toks) := by
      rw [renewalStep_ok env.at_auto_refresh_enabled env.getAllTokens env.now toks hall,
        hen]
      simp
    have hren := select_token_renewed env cache fi fv rp out _ hR h
    refine ⟨hren, ?_⟩
    intro i hi
    rw [hren] at hi
    unfold renewalPass at hi
    obtain ⟨t, ht, hid⟩ := List.mem_map.mp hi
    have hf := List.mem_filter.mp ht
    obtain ⟨hact, e, he, hle⟩ := needsRenewal_spec env.now t hf.2
    exact ⟨t, hf.1, hid, hact, e, he, hle⟩
  · intro env f cache fi fv rp
    rfl

theorem c5_renewal_pass_witness :
    (⟨[], none, [3], [], none⟩ : SelectOutcome).renewed =
      renewalPass envRenew.now [tokExpiring] ∧
    (∀ i ∈ (⟨[], none, [3], [], none⟩ : SelectOutcome).renewed,
      ∃ t, t ∈ [tokExpiring] ∧ t.id = i ∧ t.is_active = true ∧
        ∃ e, t.expiry_time = some e ∧ e - envRenew.now ≤ 24 * 3600) :=
  c5_renewal_pass.1 envRenew [] false false false [tokExpiring]
    ⟨[], none, [3], [], none⟩ rfl rfl rfl

/-- C8: exhaustion is the `None` outcome, never an error: an empty live
pool, a pool emptied by the plan filter, a pool emptied by the video filter,
and a pool emptied by the image filter each make `select_token` return
`Except.ok` with `chosen = none`. -/
theorem c8_exhaustion :
    (∀ (env : Env) (cache : Cache) (fi fv rp : Bool) (renewed : List Nat),
      renewalStep env.at_auto_refresh_enabled env.getAllTokens env.now =
        Except.ok renewed →
      env.getActiveTokens = Except.ok [] →
      select_token env cache fi fv rp =
        Except.ok ⟨cache, none, renewed, [], none⟩) ∧
    (∀ (env : Env) (cache : Cache) (fi fv : Bool) (renewed : List Nat)
        (active : List Token),
      renewalStep env.at_auto_refresh_enabled env.getAllTokens env.now =
        Except.ok renewed →
      env.getActiveTokens = Except.ok active → active.isEmpty = false →
      active.filter (fun t => t.plan_type = "chatgpt_pro") = [] →
      select_token env cache fi fv true =
        Except.ok ⟨cache, none, renewed, [], none⟩) ∧
    (∀ (env : Env) (cache : Cache) (fi rp : Bool) (renewed : List Nat)
        (active pool : List Token) (refr : List Nat),
      renewalStep env.at_auto_refresh_enabled env.getAllTokens env.now =
        Except.ok renewed →
      env.getActiveTokens = Except.ok active → active.isEmpty = false →
      proStage rp active = some pool →
      filterVideo env.now env.refreshQuota env.getToken pool =
        Except.ok ([], refr) →
      select_token env cache fi true rp =
        Except.ok ⟨cache, none, renewed, refr, none⟩) ∧
    (∀ (env : Env) (cache : Cache) (rp : Bool) (renewed : List Nat)
        (active pool : List Token),
      renewalStep env.at_auto_refresh_enabled env.getAllTokens env.now =
        Except.ok renewed →
      env.getActiveTokens = Except.ok active → active.isEmpty = false →
      proStage rp active = some pool →
      filterImage env.is_locked env.hasConcurrencyManager env.can_use_image pool = [] →
      select_token env cache true false rp =
        Except.ok ⟨cache, none, renewed, [], none⟩) := by
  refine ⟨?_, ?_, ?_, ?_⟩
  · intro env cache fi fv rp renewed hR hA
    unfold select_token
    rw [hR, hA]
    rfl
  · intro env cache fi fv renewed active hR hA hae hpro
    have hP : proStage true active = none := by
      unfold proStage
      rw [hpro]
      simp
    unfold select_token
    rw [hR, hA]
    dsimp only
    rw [hae, hP]
    rfl
  · intro env cache fi rp renewed active pool refr hR hA hae hP hV
    unfold select_token
    rw [hR, hA]
    dsimp only
    rw [hae, hP]
    dsimp only
    rw [hV]
    rfl
  · intro env cache rp renewed active pool hR hA hae hP hImg
    unfold select_token
    rw [hR, hA]
    dsimp only
    rw [hae, hP]
    dsimp only
    unfold postVideoStage
    dsimp only
    rw [hImg]
    rfl

theorem c8_exhaustion_witness :
    select_token baseEnv [] false false false =
      Except.ok ⟨[], none, [], [], none⟩ ∧
    select_token envNoPro [] false false true =
      Except.ok ⟨[], none, [], [], none⟩ ∧
    select_token envNoVideo [] false true false =
      Except.ok ⟨[], none, [], [], none⟩ ∧
    select_token envNoImage [] true false false =
      Except.ok ⟨[], none, [], [], none⟩ :=
  ⟨c8_exhaustion.1 baseEnv [] false false false [] rfl rfl,
   c8_exhaustion.2.1 envNoPro [] false false [] [tokFree] rfl rfl rfl rfl,
   c8_exhaustion.2.2.1 envNoVideo [] false false [] [tokNoVideo] [tokNoVideo] []
     rfl rfl rfl rfl rfl,
   c8_exhaustion.2.2.2 envNoImage [] false [] [tokNoImage] [tokNoImage]
     rfl rfl rfl rfl rfl⟩

/-- C9: the registry write persisting the incremented counter is computed
from the output of the critical section alone and issued after it
(`_select_round_robin` is the pure critical section followed by scheduling
the increment for the selected id), the background increment task absorbs
any failure and always completes normally, and the selection outcome of
`select_token` is independent of the behaviour of the increment collaborator. -/
theorem c9_async_persist :
    (∀ (c : Cache) (l : List Token),
      select_round_robin c l =
        ((roundRobinCritical c l).1, (roundRobinCritical c l).2,
          (roundRobinCritical c l).2.map (fun t => t.id))) ∧
    (∀ (inc : Nat → Except String Unit) (tid : Nat),
      async_increment_db_usage inc tid = ()) ∧
    (∀ (env : Env) (f : Nat → Except String Unit) (cache : Cache) (fi fv rp : Bool),
      select_token { env with incrementUsage := f } cache fi fv rp =
        select_token env cache fi fv rp) :=
  ⟨fun _ _ => rfl, fun _ _ => Subsingleton.elim _ _, fun _ _ _ _ _ _ => rfl⟩

/-- C10: on a call with both `for_image_generation` and
`for_video_generation` true, the video filter runs first and the final
selection is the image branch over its output, and the video admission
predicate `can_use_video` is never consulted. -/
theorem c10_both_flags :
    (∀ (env : Env) (f : Nat → Bool) (cache : Cache) (rp : Bool),
      select_token { env with can_use_video := f } cache true true rp =
        select_token env cache true true rp) ∧
    (∀ (env : Env) (cache : Cache) (rp : Bool) (renewed : List Nat)
        (active pool kept : List Token) (refr : List Nat),
      renewalStep env.at_auto_refresh_enabled env.getAllTokens env.now =
        Except.ok renewed →
      env.getActiveTokens = Except.ok active →
      active.isEmpty = false →
      proStage rp active = some pool →
      filterVideo env.now env.refreshQuota env.getToken pool =
        Except.ok (kept, refr) →
      kept.isEmpty = false →
      select_token env cache true true rp =
        (if (filterImage env.is_locked env.hasConcurrencyManager
              env.can_use_image kept).isEmpty = true
         then Except.ok ⟨cache, none, renewed, refr, none⟩
         else pickByMode env.schedulingMode env.choiceIdx cache renewed refr
           (filterImage env.is_locked env.hasConcurrencyManager
             env.can_use_image kept))) := by
  constructor
  · intro env f cache rp
    rfl
  · intro env cache rp renewed active pool kept refr hR hA hae hP hV hke
    unfold select_token
    rw [hR, hA]
    dsimp only
    rw [hae, hP]
    dsimp only
    rw [hV]
    dsimp only
    rw [hke]
    rfl

theorem c10_both_flags_witness :
    select_token envHealthy [] true true false =
      (if (filterImage envHealthy.is_locked envHealthy.hasConcurrencyManager
            envHealthy.can_use_image [tokHealthy]).isEmpty = true
       then Except.ok ⟨[], none, [], [], none⟩
       else pickByMode envHealthy.schedulingMode envHealthy.choiceIdx [] [] []
         (filterImage envHealthy.is_locked envHealthy.hasConcurrencyManager
           envHealthy.can_use_image [tokHealthy])) :=
  c10_both_flags.2 envHealthy [] false [] [tokHealthy] [tokHealthy] [tokHealthy] []
    rfl rfl rfl rfl rfl rfl

end LoadBalancer
